import Mathlib

/-!
Shallow embedding of the SkillLens repository (Next.js/TypeScript):
* `src/app/page.tsx` — the client-side matching & scoring engine
  (normalize, fuzzy re-match, technical/soft classification, percentages,
  readiness score, top-missing ranking, roadmap, `handleAnalyze` state flow);
* `src/app/api/jobs/route.ts` — the extraction gateway `POST` handler.

Modelling conventions:
* JS strings are modelled as Lean `String` / `List Char`; the ASCII fragment
  of `toLowerCase`/`\s` is used (all string literals in the repository and in
  the claims are ASCII).
* JS numbers are modelled exactly: the quantities rounded by `Math.round` in
  the code are ratios of naturals, so `Math.round(num/den)` is embedded as
  integer arithmetic `(2*num + den) / (2*den)` (= ⌊num/den + 1/2⌋); a bridging
  lemma relates this to the `Int.floor` formulation over `ℚ`.
* `Array.prototype.sort` with the comparator `(a, b) => b.score - a.score`
  is the stable descending sort on scores, embedded as a stable insertion
  sort `sortD`.
* The asynchronous request flow of `handleAnalyze` and of the route handler
  is embedded as a pure state-transition function over an explicit outcome
  of the awaited call.
-/

namespace SkillLens

/-- ASCII/Latin-1 fragment of the JS regex class `\s` (space, tab, LF, CR,
vertical tab, form feed, NBSP). -/
def isJsSpace (c : Char) : Bool :=
  c == ' ' || c == '\t' || c == '\n' || c == '\r' ||
  c == Char.ofNat 11 || c == Char.ofNat 12 || c == Char.ofNat 160

/-- JS `String.prototype.trim`: strip leading and trailing whitespace. -/
def jsTrim (s : List Char) : List Char :=
  ((s.dropWhile isJsSpace).reverse.dropWhile isJsSpace).reverse

/-- JS `String.prototype.toLowerCase` (ASCII fragment). -/
def jsLower (s : List Char) : List Char :=
  s.map Char.toLower

/-- JS `String.prototype.split` with a single-character separator.
`"".split(",") = [""]`, `",".split(",") = ["", ""]`. -/
def splitChar (sep : Char) : List Char → List (List Char)
  | [] => [[]]
  | c :: rest =>
    let r := splitChar sep rest
    if c = sep then [] :: r
    else match r with
      | [] => [[c]]
      | seg :: segs => (c :: seg) :: segs

/-- JS `hay.includes(needle)`: `needle` occurs as a contiguous substring of
`hay` (the empty needle always occurs). -/
def jsIncludes (hay needle : List Char) : Bool :=
  match hay with
  | [] => needle.isEmpty
  | _ :: rest => needle.isPrefixOf hay || jsIncludes rest needle

/-- Non-overlapping occurrence counting, fuelled left-to-right scan; called
with `fuel = hay.length` and a non-empty `needle`.  After a match the scan
resumes just past the matched text, as a JS global regex does. -/
def countOccAux (needle : List Char) : Nat → List Char → Nat
  | 0, _ => 0
  | _ + 1, [] => 0
  | fuel + 1, c :: rest =>
    if needle.isPrefixOf (c :: rest) then
      1 + countOccAux needle fuel (rest.drop (needle.length - 1))
    else countOccAux needle fuel rest

/-- JS `(hay.match(new RegExp(escape(needle), "g")) || []).length`: the number
of non-overlapping occurrences of the literal `needle` in `hay`; the empty
pattern matches at every position (`hay.length + 1` times). -/
def countOccurrences (hay needle : List Char) : Nat :=
  if needle.isEmpty then hay.length + 1 else countOccAux needle hay.length hay

/-- JS `Math.round(num/den)` for natural `num`, `den`, embedded exactly:
`⌊num/den + 1/2⌋ = (2*num + den) / (2*den)` (rounding half up). -/
def mathRound (num den : ℕ) : ℕ :=
  (2 * num + den) / (2 * den)

/-- Insert into a score-sorted-descending list, before the first element of
not-larger score (so the insertion sort below is stable, as JS
`Array.prototype.sort` is). -/
def insertD {α : Type} (x : α × ℕ) : List (α × ℕ) → List (α × ℕ)
  | [] => [x]
  | y :: ys => if x.2 ≥ y.2 then x :: y :: ys else y :: insertD x ys

/-- Stable sort, descending by score: the model of
`ranked.sort((a, b) => b.score - a.score)`. -/
def sortD {α : Type} : List (α × ℕ) → List (α × ℕ)
  | [] => []
  | x :: xs => insertD x (sortD xs)

/-! ## The matching & scoring engine (`src/app/page.tsx`) -/

/-- `normalize` from page.tsx:
`str.trim().toLowerCase().replace(/[\.\-\s]/g, "")`. -/
def normalize (s : List Char) : List Char :=
  ((jsTrim s).map Char.toLower).filter
    (fun c => !(c == '.' || c == '-' || isJsSpace c))

/-- `userSkills.split(",").map(normalize)` from `handleAnalyze` (the raw
user-skills text split on commas; empty segments are NOT filtered out). -/
def userSkillsArrayOf (userSkills : String) : List (List Char) :=
  (splitChar ',' userSkills.toList).map normalize

/-- The fuzzy re-match test from `handleAnalyze`: a required skill is matched
iff some normalized user-entered skill is a substring of its normalization or
vice versa. -/
def isMatched (userSkillsArray : List (List Char)) (skill : String) : Bool :=
  userSkillsArray.any (fun userSkill =>
    jsIncludes userSkill (normalize skill.toList) ||
    jsIncludes (normalize skill.toList) userSkill)

/-- The `missingSkills` list built by the `forEach` loop of `handleAnalyze`:
required skills that fail the fuzzy re-match, in order. -/
def clientMissingSkills (required : List String) (userSkills : String) : List String :=
  required.filter (fun skill => !(isMatched (userSkillsArrayOf userSkills) skill))

/-- `technicalKeywords` from `handleAnalyze`. -/
def technicalKeywords : List String :=
  ["html", "css", "javascript", "typescript", "react", "angular", "vue",
   "svelte", "node", "express", "api", "sql", "postgres", "mysql", "mongodb",
   "redis", "docker", "kubernetes", "aws", "gcp", "azure", "git", "webpack",
   "vite", "next", "nestjs"]

/-- A skill is technical iff its lowercased text contains some keyword. -/
def isTechnical (skill : String) : Bool :=
  technicalKeywords.any (fun kw => jsIncludes (jsLower skill.toList) kw.toList)

/-- The `technicalSkills` list built by the classification loop. -/
def technicalSkills (required : List String) : List String :=
  required.filter isTechnical

/-- The `softSkills` list built by the classification loop. -/
def softSkills (required : List String) : List String :=
  required.filter (fun skill => !isTechnical skill)

/-- The `AnalysisResult` snapshot stored by `setAnalysis` on success. -/
structure AnalysisResult where
  requiredSkills : List String
  missingSkills : List String
  technicalSkills : List String
  softSkills : List String
deriving DecidableEq, Repr

/-- The analysis object built inside `handleAnalyze` from the gateway's
`requiredSkills` and the raw user-skills text. -/
def buildAnalysis (required : List String) (userSkills : String) : AnalysisResult :=
  { requiredSkills := required
    missingSkills := clientMissingSkills required userSkills
    technicalSkills := technicalSkills required
    softSkills := softSkills required }

/-- The `matchedSkills` memo:
`analysis.requiredSkills.filter(s => !analysis.missingSkills.includes(s))`. -/
def matchedSkills (a : AnalysisResult) : List String :=
  a.requiredSkills.filter (fun skill => !(a.missingSkills.contains skill))

/-- The `matchPercentage` memo:
`Math.round((matchedSkills.length / requiredSkills.length) * 100)`, `0` when
`requiredSkills` is empty. -/
def matchPercentage (a : AnalysisResult) : ℕ :=
  if a.requiredSkills.length = 0 then 0
  else mathRound ((matchedSkills a).length * 100) a.requiredSkills.length

/-- The `technicalMatchPercentage` memo. -/
def technicalMatchPercentage (a : AnalysisResult) : ℕ :=
  if a.technicalSkills.length = 0 then 0
  else mathRound
    (((matchedSkills a).filter (fun s => a.technicalSkills.contains s)).length * 100)
    a.technicalSkills.length

/-- The `softMatchPercentage` memo. -/
def softMatchPercentage (a : AnalysisResult) : ℕ :=
  if a.softSkills.length = 0 then 0
  else mathRound
    (((matchedSkills a).filter (fun s => a.softSkills.contains s)).length * 100)
    a.softSkills.length

/-- The `readinessScore` memo as a function of the three percentages:
`Math.max(0, Math.min(100, Math.round(mp*0.6 + tp*0.3 + sp*0.1)))`
(`mp*0.6 + tp*0.3 + sp*0.1` is exactly `(6*mp + 3*tp + sp)/10`). -/
def readinessScoreOf (mp tp sp : ℕ) : ℕ :=
  max 0 (min 100 (mathRound (6 * mp + 3 * tp + sp) 10))

/-- The `readinessScore` memo of an analysis. -/
def readinessScore (a : AnalysisResult) : ℕ :=
  readinessScoreOf (matchPercentage a) (technicalMatchPercentage a) (softMatchPercentage a)

/-- `importanceWords` from the `topSuggested` memo. -/
def importanceWords : List String :=
  ["must", "required", "need", "essential", "strong", "experience",
   "proficiency", "proven"]

/-- The score the `topSuggested` memo assigns to one missing skill: the inner
`forEach` adds a flat `5` for each importance word `w` such that the
lowercased job description contains `w ++ " " ++ skill` or
`w ++ " with " ++ skill` (an `includes` test, not an occurrence count), then
adds `2` per raw occurrence of the lowercased skill. -/
def skillScore (jobDescription skill : String) : ℕ :=
  (importanceWords.foldl (fun score word =>
    if jsIncludes (jsLower jobDescription.toList)
         (word.toList ++ [' '] ++ jsLower skill.toList) ||
       jsIncludes (jsLower jobDescription.toList)
         (word.toList ++ " with ".toList ++ jsLower skill.toList)
    then score + 5 else score) 0)
  + 2 * countOccurrences (jsLower jobDescription.toList) (jsLower skill.toList)

/-- The `topSuggested` memo: rank all missing skills by `skillScore`, stable
sort descending, take the first 5; if fewer than 5 were taken, pad with the
remaining missing skills in original order (a dead branch: the slice already
covers every missing skill). -/
def topSuggested (jobDescription : String) (missingSkills : List String) : List String :=
  let ranked := missingSkills.map (fun skill => (skill, skillScore jobDescription skill))
  let top := ((sortD ranked).take 5).map Prod.fst
  if top.length < 5 then
    top ++ (missingSkills.filter (fun s => !(top.contains s))).take (5 - top.length)
  else top

/-- The `learningRoadmap` memo: fixed lines keyed on buckets of missing-skill
keywords, in a fixed order, with a generic fallback when no bucket fires. -/
def learningRoadmap (missingSkills : List String) : List String :=
  let lowerMissing := missingSkills.map (fun s => jsLower s.toList)
  let hasHTMLorCSSorJS := lowerMissing.any (fun s =>
    jsIncludes s "html".toList || jsIncludes s "css".toList ||
    jsIncludes s "javascript".toList || jsIncludes s "typescript".toList)
  let hasFramework := lowerMissing.any (fun s =>
    jsIncludes s "react".toList || jsIncludes s "angular".toList ||
    jsIncludes s "vue".toList || jsIncludes s "next".toList ||
    jsIncludes s "svelte".toList)
  let hasBackend := lowerMissing.any (fun s =>
    jsIncludes s "node".toList || jsIncludes s "express".toList ||
    jsIncludes s "api".toList || jsIncludes s "sql".toList ||
    jsIncludes s "mongodb".toList)
  let hasTools := lowerMissing.any (fun s =>
    jsIncludes s "git".toList || jsIncludes s "docker".toList ||
    jsIncludes s "aws".toList || jsIncludes s "azure".toList)
  let hasSoft := missingSkills.any (fun s =>
    jsIncludes (jsLower s.toList) "communication".toList ||
    jsIncludes (jsLower s.toList) "team".toList ||
    jsIncludes (jsLower s.toList) "collaboration".toList)
  let roadmap :=
    (if hasHTMLorCSSorJS then
      ["1. Core fundamentals — HTML, CSS, and JavaScript (build small projects)."] else []) ++
    (if hasFramework then
      ["2. Learn a modern framework — React/Next.js and state management (Redux/Zustand)."] else []) ++
    (if hasBackend then
      ["3. Backend basics — Build RESTful APIs with Node/Express and practice with a database."] else []) ++
    (if hasTools then
      ["4. Developer tools — Git, Docker, and basic cloud deployment."] else []) ++
    (if hasSoft then
      ["5. Soft skills — communication, teamwork, documenting your work (README/comments)."] else [])
  if roadmap.isEmpty then
    ["1. Start with core JS + one framework, 2. Build CRUD app + DB, 3. Learn Git & deployment."]
  else roadmap

/-! ## The extraction gateway (`src/app/api/jobs/route.ts`) -/

/-- `resultText.split(",").map(s => s.trim()).filter(Boolean)`: the parsing of
the external model's reply into `extractedSkills`. -/
def extractedSkills (resultText : String) : List String :=
  (((splitChar ',' resultText.toList).map jsTrim).map
    (fun l => (⟨l⟩ : String))).filter (fun s => s != "")

/-- `extractedSkills.filter(skill => !userSkills.includes(skill))`: the
gateway's exact, case-sensitive missing-skill computation. -/
def gatewayMissingSkills (extracted userSkills : List String) : List String :=
  extracted.filter (fun skill => !(userSkills.contains skill))

/-- The success path of the `POST` handler after the external call returned
`resultText`: the `{requiredSkills, missingSkills}` payload it responds with. -/
def postRouteSuccess (resultText : String) (userSkills : List String) :
    List String × List String :=
  (extractedSkills resultText,
   gatewayMissingSkills (extractedSkills resultText) userSkills)

/-- Outcome of `await req.json()` (before the `try` block of `POST`). -/
inductive BodyParse where
  | ok (jobDescription : String) (userSkills : List String)
  | malformed
deriving DecidableEq

/-- Outcome of the awaited external `generateContent` call (inside the
`try` block); `ok text` carries `response.text || ""`. -/
inductive AiCall where
  | ok (text : String)
  | fail
deriving DecidableEq

/-- What the `POST` handler produces towards the HTTP layer. -/
inductive RouteResponse where
  | json (status : ℕ) (requiredSkills missingSkills : List String)
  | jsonError (status : ℕ) (error : String)
  | uncaughtException
deriving DecidableEq

/-- Result of one `POST` invocation: the response plus the entries appended
to the in-memory `jobAnalysisStore` (as `(requiredSkills, missingSkills)`). -/
structure RouteResult where
  response : RouteResponse
  appendedToStore : List (List String × List String)
deriving DecidableEq

/-- The `POST` handler of route.ts: `await req.json()` runs before the `try`,
so a malformed body escapes as an uncaught exception; a failure of the
external call inside the `try` is converted to the generic
`{error: "Failed to analyze job"}` 500 response with nothing appended; on
success the analysis is appended to the store and echoed back. -/
def POST : BodyParse → AiCall → RouteResult
  | .malformed, _ =>
    { response := .uncaughtException, appendedToStore := [] }
  | .ok _ userSkills, .ok text =>
    { response := .json 200 (postRouteSuccess text userSkills).1
        (postRouteSuccess text userSkills).2
      appendedToStore := [postRouteSuccess text userSkills] }
  | .ok _ _, .fail =>
    { response := .jsonError 500 "Failed to analyze job", appendedToStore := [] }

/-! ## The `handleAnalyze` request flow (`src/app/page.tsx`) -/

/-- The React state touched by `handleAnalyze`. -/
structure PageState where
  analysis : Option AnalysisResult
  error : Option String
  loading : Bool
deriving DecidableEq

/-- Outcome of the awaited `axios.post("/api/jobs", ...)` as seen by the
client: a response whose data passes the array-shape check, a response of
unexpected shape, or a thrown error (network failure / non-2xx status). -/
inductive ApiOutcome where
  | success (requiredSkills missingSkills : List String)
  | badShape
  | failure
deriving DecidableEq

/-- One run of `handleAnalyze` over the page state: empty inputs only set
the validation error; otherwise the in-flight sequence
`setError(null); setLoading(true); setAnalysis(null)` runs, the request is
awaited, and the branches of the shape check / `catch` set the final state
(`setLoading(false)` runs unconditionally at the end). -/
def handleAnalyze (st : PageState) (jobDescription userSkills : String)
    (outcome : ApiOutcome) : PageState :=
  if jobDescription = "" ∨ userSkills = "" then
    { st with error := some "Please fill in both fields before analyzing." }
  else
    match outcome with
    | .success required _ =>
      { analysis := some (buildAnalysis required userSkills)
        error := none
        loading := false }
    | .badShape =>
      { analysis := none
        error := some "API returned an unexpected data format."
        loading := false }
    | .failure =>
      { analysis := none
        error := some "Analysis failed. Check server console/network tab."
        loading := false }

/-! ## Spec-side definitions for the top-missing ranking (claim refinement)

The spec describes the ranking with two deviations from the code's shape: it
awards 5 points *per occurrence* of an importance phrase (the code awards a
flat 5 per importance word whose phrase occurs at all), and it describes the
top-5 as "positively scored skills first, then padding in original order"
(the code stable-sorts everything and slices).  `specTopSuggestedWith` is the
spec's wording, parameterised by the scoring function. -/

/-- The spec's per-skill score: 5 points per *occurrence* of an importance
phrase (`word ++ " " ++ skill` or `word ++ " with " ++ skill`) in the
lowercased job description, plus 2 per raw occurrence of the skill. -/
def specSkillScore (jobDescription skill : String) : ℕ :=
  5 * (importanceWords.map (fun word =>
        countOccurrences (jsLower jobDescription.toList)
          (word.toList ++ [' '] ++ jsLower skill.toList) +
        countOccurrences (jsLower jobDescription.toList)
          (word.toList ++ " with ".toList ++ jsLower skill.toList))).sum
  + 2 * countOccurrences (jsLower jobDescription.toList) (jsLower skill.toList)

/-- The amended per-skill score: a flat 5 per importance word whose phrase
occurs at least once (what the code's boolean `includes` test computes),
plus 2 per raw occurrence of the skill. -/
def amendedSkillScore (jobDescription skill : String) : ℕ :=
  5 * (importanceWords.filter (fun word =>
        jsIncludes (jsLower jobDescription.toList)
          (word.toList ++ [' '] ++ jsLower skill.toList) ||
        jsIncludes (jsLower jobDescription.toList)
          (word.toList ++ " with ".toList ++ jsLower skill.toList))).length
  + 2 * countOccurrences (jsLower jobDescription.toList) (jsLower skill.toList)

/-- The spec's wording of the ranking, for a given scoring function: skills
scoring above zero are sorted descending (stably) and the top 5 taken; if
fewer than 5 score above zero, pad with the remaining missing skills in
original order until 5 entries or exhaustion. -/
def specTopSuggestedWith (score : String → String → ℕ) (jobDescription : String)
    (missingSkills : List String) : List String :=
  let ranked := missingSkills.map (fun skill => (skill, score jobDescription skill))
  let top := ((sortD (ranked.filter (fun p => p.2 != 0))).take 5).map Prod.fst
  top ++ (missingSkills.filter (fun s => !(top.contains s))).take (5 - top.length)

/-- The top-missing ranking exactly as the claim states it (per-occurrence
phrase scoring). -/
def specTopSuggested (jobDescription : String) (missingSkills : List String) :
    List String :=
  specTopSuggestedWith specSkillScore jobDescription missingSkills

/-- The top-missing ranking as amended (flat 5 per importance word whose
phrase occurs). -/
def amendedTopSuggested (jobDescription : String) (missingSkills : List String) :
    List String :=
  specTopSuggestedWith amendedSkillScore jobDescription missingSkills

/-- One full run of the matching & scoring engine on fixed inputs: the
analysis snapshot, the three percentages, the readiness score, the
top-missing list and the roadmap. -/
def analyzeRun (required : List String) (userSkills jobDescription : String) :
    AnalysisResult × ℕ × ℕ × ℕ × ℕ × List String × List String :=
  let a := buildAnalysis required userSkills
  (a, matchPercentage a, technicalMatchPercentage a, softMatchPercentage a,
   readinessScore a, topSuggested jobDescription a.missingSkills,
   learningRoadmap a.missingSkills)

/-! ## Helper lemmas -/

/-- The empty needle is a substring of every string (`"x".includes("")`). -/
theorem jsIncludes_nil (hay : List Char) : jsIncludes hay [] = true := by
  cases hay <;> simp [jsIncludes, List.isPrefixOf]

/-- `List.contains` agrees with membership for strings. -/
theorem contains_iff (l : List String) (s : String) : l.contains s = true ↔ s ∈ l :=
  List.elem_iff

/-- Inserting with `insertD` is a permutation of consing. -/
theorem insertD_perm {α : Type} (x : α × ℕ) (l : List (α × ℕ)) :
    (insertD x l).Perm (x :: l) := by
  induction l with
  | nil => exact List.Perm.refl _
  | cons y ys ih =>
    by_cases hxy : x.2 ≥ y.2
    · simp [insertD, hxy]
    · simp only [insertD, if_neg hxy]
      exact (ih.cons y).trans (List.Perm.swap x y ys)

/-- `sortD` permutes its input. -/
theorem sortD_perm {α : Type} (l : List (α × ℕ)) : (sortD l).Perm l := by
  induction l with
  | nil => exact List.Perm.refl _
  | cons x xs ih => exact (insertD_perm x (sortD xs)).trans (ih.cons x)

/-- Inserting an element whose score dominates the whole right part keeps the
right part in place. -/
theorem insertD_append_of_le {α : Type} (x : α × ℕ) (l₁ l₂ : List (α × ℕ))
    (h : ∀ y ∈ l₂, y.2 ≤ x.2) :
    insertD x (l₁ ++ l₂) = insertD x l₁ ++ l₂ := by
  induction l₁ with
  | nil =>
    cases l₂ with
    | nil => rfl
    | cons z zs => simp [insertD, h z (by simp)]
  | cons y ys ih =>
    by_cases hxy : x.2 ≥ y.2 <;> simp [insertD, hxy, ih]

/-- Inserting an element strictly dominated by the whole left part walks past
the left part. -/
theorem insertD_append_of_lt {α : Type} (x : α × ℕ) (l₁ l₂ : List (α × ℕ))
    (h : ∀ y ∈ l₁, ¬ y.2 ≤ x.2) :
    insertD x (l₁ ++ l₂) = l₁ ++ insertD x l₂ := by
  induction l₁ with
  | nil => rfl
  | cons y ys ih =>
    have hy : ¬ x.2 ≥ y.2 := h y (by simp)
    have ih2 := ih (fun z hz => h z (by simp [hz]))
    simp [insertD, hy, ih2]

/-- The stable descending sort splits as: the positively scored elements
sorted, followed by the zero-scored elements in their original order. -/
theorem sortD_split {α : Type} (l : List (α × ℕ)) :
    sortD l = sortD (l.filter (fun p => p.2 != 0)) ++ l.filter (fun p => p.2 == 0) := by
  induction l with
  | nil => rfl
  | cons x xs ih =>
    by_cases hx : x.2 = 0
    · rw [show sortD (x :: xs) = insertD x (sortD xs) from rfl, ih,
        insertD_append_of_lt]
      · have hinsz : insertD x (xs.filter (fun p => p.2 == 0)) =
            x :: xs.filter (fun p => p.2 == 0) := by
          cases hZ : xs.filter (fun p => p.2 == 0) with
          | nil => rfl
          | cons z zs =>
            have hzmem : z ∈ xs.filter (fun p => p.2 == 0) := by
              rw [hZ]; exact List.mem_cons_self z zs
            have hz : (z.2 == 0) = true := (List.mem_filter.1 hzmem).2
            simp only [beq_iff_eq] at hz
            simp [insertD, hx, hz]
        simp [List.filter_cons, hx, hinsz]
      · intro y hy
        have hyP : y ∈ xs.filter (fun p => p.2 != 0) :=
          (sortD_perm _).mem_iff.1 hy
        have hy2 : (y.2 != 0) = true := (List.mem_filter.1 hyP).2
        simp only [bne_iff_ne, ne_eq] at hy2
        omega
    · rw [show sortD (x :: xs) = insertD x (sortD xs) from rfl, ih,
        insertD_append_of_le]
      · simp [List.filter_cons, hx, sortD]
      · intro y hy
        have hy2 : (y.2 == 0) = true := (List.mem_filter.1 hy).2
        simp only [beq_iff_eq] at hy2
        omega

/-- The `forEach`-style fold adding a flat 5 per satisfying word equals 5
times the number of satisfying words. -/
theorem foldl_add_five (p : String → Bool) (l : List String) (n : ℕ) :
    l.foldl (fun score word => if p word then score + 5 else score) n =
      n + 5 * (l.filter p).length := by
  induction l generalizing n with
  | nil => simp
  | cons w ws ih =>
    by_cases hw : p w = true
    · simp only [List.foldl_cons, hw, if_true, List.filter_cons, ih]
      simp [hw]
      omega
    · simp only [List.foldl_cons, hw, if_false, List.filter_cons, ih]
      simp [hw]

/-- The code's `skillScore` equals the amended scoring (flat 5 per importance
word whose phrase occurs). -/
theorem skillScore_eq_amended (jobDescription skill : String) :
    skillScore jobDescription skill = amendedSkillScore jobDescription skill := by
  unfold skillScore amendedSkillScore
  rw [foldl_add_five]
  omega

/-- Filtering a ranked list on the score of the pair is filtering the skills
on their score. -/
theorem filter_zero_map_pair (jd : String) (l : List String) :
    (l.map (fun s => (s, skillScore jd s))).filter (fun p => p.2 == 0) =
      (l.filter (fun s => skillScore jd s == 0)).map
        (fun s => (s, skillScore jd s)) := by
  induction l with
  | nil => rfl
  | cons a t ih =>
    by_cases h : skillScore jd a = 0 <;> simp [List.filter_cons, h, ih]

/-- Core of the amended top-missing claim: the code's "stable-sort everything,
slice 5, (dead) pad" equals the spec's "positively scored skills sorted and
cut at 5, then the remaining missing skills in original order up to 5". -/
theorem topSuggested_eq_specWith_skillScore (jd : String) (ms : List String) :
    topSuggested jd ms = specTopSuggestedWith skillScore jd ms := by
  unfold topSuggested specTopSuggestedWith
  dsimp only
  set ranked := ms.map (fun skill => (skill, skillScore jd skill)) with hranked
  set P := ranked.filter (fun p => p.2 != 0) with hPdef
  set Z := ranked.filter (fun p => p.2 == 0) with hZdef
  set SP := sortD P with hSPdef
  set top2 := (SP.take 5).map Prod.fst with htop2def
  have hsplit : sortD ranked = SP ++ Z := sortD_split ranked
  have hlenSP : SP.length = P.length := (sortD_perm P).length_eq
  have hZmapfst : Z.map Prod.fst = ms.filter (fun s => skillScore jd s == 0) := by
    rw [hZdef, hranked, filter_zero_map_pair, List.map_map]
    rw [show (Prod.fst ∘ fun s : String => (s, skillScore jd s)) = id from rfl,
      List.map_id]
  have hskillmem : ∀ s ∈ ms, (s, skillScore jd s) ∈ ranked := by
    intro s hs
    rw [hranked]
    exact List.mem_map_of_mem _ hs
  rw [hsplit]
  by_cases hbig : 5 ≤ P.length
  · have hTA : ((SP ++ Z).take 5).map Prod.fst = top2 := by
      rw [List.take_append_eq_append_take,
        show 5 - SP.length = 0 by omega, List.take_zero, List.append_nil]
    have hlen5 : top2.length = 5 := by
      rw [htop2def]
      simp only [List.length_map, List.length_take]
      omega
    rw [hTA, if_neg (by omega : ¬ top2.length < 5)]
    simp [hlen5]
  · push_neg at hbig
    have htakeSP : SP.take 5 = SP := List.take_of_length_le (by omega)
    have htopeq : ((SP ++ Z).take 5).map Prod.fst =
        top2 ++ (Z.map Prod.fst).take (5 - P.length) := by
      rw [List.take_append_eq_append_take, List.map_append, htop2def, htakeSP,
        List.map_take, hlenSP]
    have htop2mem : ∀ s : String, s ∈ top2 ↔ s ∈ ms ∧ skillScore jd s ≠ 0 := by
      intro s
      constructor
      · intro hs
        rw [htop2def, htakeSP] at hs
        obtain ⟨q, hqSP, hfst⟩ := List.mem_map.1 hs
        have hqP : q ∈ P := (sortD_perm P).mem_iff.1 hqSP
        have hq2 : (q.2 != 0) = true := (List.mem_filter.1 hqP).2
        have hqr : q ∈ ranked := (List.mem_filter.1 hqP).1
        rw [hranked] at hqr
        obtain ⟨t, htm, hteq⟩ := List.mem_map.1 hqr
        subst hteq
        dsimp at hfst hq2
        subst hfst
        exact ⟨htm, by simpa using hq2⟩
      · rintro ⟨hsms, hpos⟩
        have h1 : (s, skillScore jd s) ∈ P := by
          rw [hPdef]
          exact List.mem_filter.2 ⟨hskillmem s hsms, by simpa using hpos⟩
        have h2 : (s, skillScore jd s) ∈ SP := (sortD_perm P).mem_iff.2 h1
        rw [htop2def, htakeSP]
        exact List.mem_map.2 ⟨(s, skillScore jd s), h2, rfl⟩
    have hpad : ms.filter (fun s => !(top2.contains s)) = Z.map Prod.fst := by
      rw [hZmapfst]
      apply List.filter_congr
      intro s hs
      by_cases hz : skillScore jd s = 0
      · have hnintop : ¬ s ∈ top2 := fun hmem => ((htop2mem s).1 hmem).2 hz
        have hc : top2.contains s = false := by
          cases hcc : top2.contains s with
          | false => rfl
          | true => exact absurd ((contains_iff _ _).1 hcc) hnintop
        rw [hc, hz]
        rfl
      · have hc : top2.contains s = true :=
          (contains_iff _ _).2 ((htop2mem s).2 ⟨hs, hz⟩)
        simp only [hc, Bool.not_true]
        exact (by simpa using hz : (skillScore jd s == 0) = false).symm
    have hlentop2 : top2.length = P.length := by
      rw [htop2def, htakeSP]
      simp [hlenSP]
    have hC : top2 ++ (ms.filter (fun s => !(top2.contains s))).take (5 - top2.length)
        = ((SP ++ Z).take 5).map Prod.fst := by
      rw [htopeq, hpad, hlentop2]
    rw [hC]
    by_cases hT : (((SP ++ Z).take 5).map Prod.fst).length < 5
    · rw [if_pos hT]
      have hlenZ : (Z.map Prod.fst).length ≤ 5 - P.length := by
        rw [htopeq] at hT
        simp only [List.length_append, List.length_take, hlentop2] at hT
        omega
      have htakeZ : (Z.map Prod.fst).take (5 - P.length) = Z.map Prod.fst :=
        List.take_of_length_le hlenZ
      have hfilnil : ms.filter
          (fun s => !((((SP ++ Z).take 5).map Prod.fst).contains s)) = [] := by
        apply List.filter_eq_nil_iff.2
        intro s hsms
        have hin : s ∈ ((SP ++ Z).take 5).map Prod.fst := by
          rw [htopeq, htakeZ]
          by_cases hz : skillScore jd s = 0
          · refine List.mem_append.2 (Or.inr ?_)
            rw [hZmapfst]
            exact List.mem_filter.2 ⟨hsms, by simp [hz]⟩
          · exact List.mem_append.2 (Or.inl ((htop2mem s).2 ⟨hsms, hz⟩))
        have hct := (contains_iff _ _).2 hin
        rw [hct]
        simp
      rw [hfilnil]
      simp
    · rw [if_neg hT]
/-! ## Claim theorems -/

/-- Claim C1: for `requiredSkills = ["React", "SQL", "Communication"]` and the
user-skills text `"react, Python"`, the matching engine marks "React" matched
and "SQL" and "Communication" missing, classifies
`technicalSkills = ["React", "SQL"]` and `softSkills = ["Communication"]`,
and computes `matchPercentage = 33`, `technicalMatchPercentage = 50`,
`softMatchPercentage = 0` and readiness score `35`. -/
theorem example_analysis_react_sql_communication :
    (buildAnalysis ["React", "SQL", "Communication"] "react, Python").missingSkills
        = ["SQL", "Communication"] ∧
    matchedSkills (buildAnalysis ["React", "SQL", "Communication"] "react, Python")
        = ["React"] ∧
    (buildAnalysis ["React", "SQL", "Communication"] "react, Python").technicalSkills
        = ["React", "SQL"] ∧
    (buildAnalysis ["React", "SQL", "Communication"] "react, Python").softSkills
        = ["Communication"] ∧
    matchPercentage
      (buildAnalysis ["React", "SQL", "Communication"] "react, Python") = 33 ∧
    technicalMatchPercentage
      (buildAnalysis ["React", "SQL", "Communication"] "react, Python") = 50 ∧
    softMatchPercentage
      (buildAnalysis ["React", "SQL", "Communication"] "react, Python") = 0 ∧
    readinessScore
      (buildAnalysis ["React", "SQL", "Communication"] "react, Python") = 35 := by
  decide

/-- Claim C2, counterexample: the claim's "5 points per occurrence of an
importance phrase" is not what the code computes — the code adds a flat 5 per
importance word whose phrase occurs at all (`includes` is a boolean test).
On job description `"must a must a must a b b b b b b"` with missing skills
`["A", "B"]`, the claim's scoring gives A = 5·3 + 2·3 = 21 and
B = 0 + 2·6 = 12 (ranking `["A", "B"]`), while the code scores
A = 5 + 6 = 11 and B = 12 and outputs `["B", "A"]`. -/
theorem topSuggested_per_occurrence_counterexample :
    specTopSuggested "must a must a must a b b b b b b" ["A", "B"] = ["A", "B"] ∧
    topSuggested "must a must a must a b b b b b b" ["A", "B"] = ["B", "A"] ∧
    topSuggested "must a must a must a b b b b b b" ["A", "B"] ≠
      specTopSuggested "must a must a must a b b b b b b" ["A", "B"] := by
  decide

/-- Claim C2, amended: for every missing skill the ranking assigns a flat 5
points per importance word from {must, required, need, essential, strong,
experience, proficiency, proven} whose phrase (the word immediately followed
by the skill, optionally with "with" in between) occurs at least once in the
lowercased job description (not 5 per occurrence), plus 2 points per raw
occurrence of the skill text; skills scoring above zero are sorted stably
descending and the top 5 taken, padded with the remaining missing skills in
original order until 5 entries or exhaustion. -/
theorem topSuggested_flat_phrase_bonus (jobDescription : String)
    (missingSkills : List String) :
    topSuggested jobDescription missingSkills =
      amendedTopSuggested jobDescription missingSkills := by
  rw [topSuggested_eq_specWith_skillScore]
  unfold amendedTopSuggested specTopSuggestedWith
  simp only [skillScore_eq_amended]

/-- Claim C3, counterexample: a failing request after a previous successful
analysis does NOT leave the previously displayed analysis in place —
`handleAnalyze` clears the analysis state (`setAnalysis(null)`) before the
request is awaited, so after the failure the state holds `none`, not the
prior analysis. -/
theorem failure_discards_prior_analysis_counterexample :
    (handleAnalyze
      { analysis := some (buildAnalysis ["React"] "react")
        error := none
        loading := false }
      "Needs React" "react" ApiOutcome.failure).analysis = none ∧
    (handleAnalyze
      { analysis := some (buildAnalysis ["React"] "react")
        error := none
        loading := false }
      "Needs React" "react" ApiOutcome.failure).analysis ≠
      some (buildAnalysis ["React"] "react") := by
  decide

/-- Claim C3, amended: with non-empty inputs, ANY failing analysis request
leaves the analysis state cleared (`none`) and the generic failure message
set — the in-flight analysis is discarded and so is the prior one, whether or
not a previous analysis had succeeded. -/
theorem failure_clears_analysis (st : PageState)
    (jobDescription userSkills : String)
    (h1 : jobDescription ≠ "") (h2 : userSkills ≠ "") :
    (handleAnalyze st jobDescription userSkills ApiOutcome.failure).analysis
      = none ∧
    (handleAnalyze st jobDescription userSkills ApiOutcome.failure).error
      = some "Analysis failed. Check server console/network tab." := by
  unfold handleAnalyze
  rw [if_neg (by tauto : ¬ (jobDescription = "" ∨ userSkills = ""))]
  exact ⟨rfl, rfl⟩

/-- Witness for the amended claim C3 at a concrete state and inputs. -/
theorem failure_clears_analysis_witness :
    (handleAnalyze
      { analysis := some (buildAnalysis ["React"] "react")
        error := none
        loading := false }
      "Needs SQL" "sql" ApiOutcome.failure).analysis = none ∧
    (handleAnalyze
      { analysis := some (buildAnalysis ["React"] "react")
        error := none
        loading := false }
      "Needs SQL" "sql" ApiOutcome.failure).error
      = some "Analysis failed. Check server console/network tab." :=
  failure_clears_analysis
    { analysis := some (buildAnalysis ["React"] "react")
      error := none
      loading := false }
    "Needs SQL" "sql" (by decide) (by decide)

/-- Claim C4: for every non-empty `requiredSkills` list, the matched and
missing skills of the analysis partition `requiredSkills` (their concatenation
is a permutation of it and they share no element), and
`matchedSkills = requiredSkills − missingSkills` (the filter the code
computes). -/
theorem matched_missing_partition_required (required : List String)
    (userSkills : String) (hne : required ≠ []) :
    (matchedSkills (buildAnalysis required userSkills) ++
      (buildAnalysis required userSkills).missingSkills).Perm required ∧
    matchedSkills (buildAnalysis required userSkills) ∩
      (buildAnalysis required userSkills).missingSkills = [] ∧
    matchedSkills (buildAnalysis required userSkills) =
      required.filter
        (fun s => !((buildAnalysis required userSkills).missingSkills.contains s)) := by
  have hmissdef : (buildAnalysis required userSkills).missingSkills =
      required.filter
        (fun skill => !(isMatched (userSkillsArrayOf userSkills) skill)) := rfl
  have hmatched : matchedSkills (buildAnalysis required userSkills) =
      required.filter (fun s => isMatched (userSkillsArrayOf userSkills) s) := by
    unfold matchedSkills buildAnalysis
    dsimp only
    apply List.filter_congr
    intro s hs
    cases hb : isMatched (userSkillsArrayOf userSkills) s with
    | true =>
      have hnm : ¬ s ∈ clientMissingSkills required userSkills := by
        intro hmem
        have hpred := (List.mem_filter.1 hmem).2
        rw [hb] at hpred
        simp at hpred
      have hc : (clientMissingSkills required userSkills).contains s = false := by
        cases hcc : (clientMissingSkills required userSkills).contains s with
        | false => rfl
        | true => exact absurd ((contains_iff _ _).1 hcc) hnm
      rw [hc]
      rfl
    | false =>
      have hmem : s ∈ clientMissingSkills required userSkills :=
        List.mem_filter.2 ⟨hs, by rw [hb]; rfl⟩
      have hc : (clientMissingSkills required userSkills).contains s = true :=
        (contains_iff _ _).2 hmem
      rw [hc]
      rfl
  refine ⟨?_, ?_, rfl⟩
  · rw [hmatched, hmissdef]
    exact List.filter_append_perm
      (fun s => isMatched (userSkillsArrayOf userSkills) s) required
  · rw [List.inter_def]
    apply List.filter_eq_nil_iff.2
    intro s hsmem
    rw [hmatched] at hsmem
    have hq : isMatched (userSkillsArrayOf userSkills) s = true :=
      (List.mem_filter.1 hsmem).2
    intro helem
    have hsmiss : s ∈ (buildAnalysis required userSkills).missingSkills :=
      List.elem_iff.1 helem
    rw [hmissdef] at hsmiss
    have hpred := (List.mem_filter.1 hsmiss).2
    rw [hq] at hpred
    simp at hpred

/-- Witness for claim C4 at the concrete run of the spec's worked example. -/
theorem matched_missing_partition_required_witness :
    (matchedSkills (buildAnalysis ["React", "SQL", "Communication"] "react, Python") ++
      (buildAnalysis ["React", "SQL", "Communication"] "react, Python").missingSkills).Perm
      ["React", "SQL", "Communication"] ∧
    matchedSkills (buildAnalysis ["React", "SQL", "Communication"] "react, Python") ∩
      (buildAnalysis ["React", "SQL", "Communication"] "react, Python").missingSkills = [] ∧
    matchedSkills (buildAnalysis ["React", "SQL", "Communication"] "react, Python") =
      (["React", "SQL", "Communication"] : List String).filter
        (fun s =>
          !((buildAnalysis ["React", "SQL", "Communication"] "react, Python").missingSkills.contains s)) :=
  matched_missing_partition_required ["React", "SQL", "Communication"]
    "react, Python" (by decide)

/-- Claim C5: `technicalSkills` and `softSkills` partition `requiredSkills`:
their concatenation is a permutation of `requiredSkills` (no element
duplicated or dropped), they share no element, and each preserves the order
of `requiredSkills` (is a sublist of it). -/
theorem technical_soft_partition_required (required : List String) :
    (technicalSkills required ++ softSkills required).Perm required ∧
    technicalSkills required ∩ softSkills required = [] ∧
    (technicalSkills required).Sublist required ∧
    (softSkills required).Sublist required := by
  refine ⟨List.filter_append_perm isTechnical required, ?_,
    List.filter_sublist required, List.filter_sublist required⟩
  rw [List.inter_def]
  apply List.filter_eq_nil_iff.2
  intro s hs
  have ht : isTechnical s = true := (List.mem_filter.1 hs).2
  intro helem
  have hsoft : s ∈ softSkills required := List.elem_iff.1 helem
  have hns := (List.mem_filter.1 hsoft).2
  rw [ht] at hns
  simp at hns

/-- Claim C6: the readiness score equals
`round(matchPercentage*0.6 + technicalMatchPercentage*0.3 +
softMatchPercentage*0.1)` clamped to `[0, 100]` (stated over `ℚ` with the
exact weights and `Int.floor`-rounding half up), and for all values of the
three percentages the score lies within `[0, 100]`. -/
theorem readinessScore_formula_and_bounds (mp tp sp : ℕ) :
    (readinessScoreOf mp tp sp : ℤ) =
      max 0 (min 100
        ⌊(mp : ℚ) * 0.6 + (tp : ℚ) * 0.3 + (sp : ℚ) * 0.1 + 1/2⌋) ∧
    readinessScoreOf mp tp sp ≤ 100 := by
  constructor
  · rw [show (mp : ℚ) * 0.6 + (tp : ℚ) * 0.3 + (sp : ℚ) * 0.1 + 1/2
        = ((2 * (6 * mp + 3 * tp + sp) + 10 : ℕ) : ℚ) / ((2 * 10 : ℕ) : ℚ) by
      push_cast; norm_num; ring]
    rw [Rat.floor_natCast_div_natCast]
    unfold readinessScoreOf mathRound
    rw [Nat.cast_max, Nat.cast_min]
    omega
  · unfold readinessScoreOf
    omega

/-- Claim C7: the gateway splits the external model's reply on commas, trims
each entry and drops empty ones to produce `extractedSkills` (which therefore
contains no empty entry), and returns `requiredSkills = extractedSkills`
together with `missingSkills`, the subsequence of `extractedSkills` whose
entries are not exactly (case-sensitively) contained in `userSkills`. -/
theorem gateway_extract_and_missing (resultText : String)
    (userSkills : List String) :
    postRouteSuccess resultText userSkills =
      (extractedSkills resultText,
        (extractedSkills resultText).filter (fun s => !(userSkills.contains s))) ∧
    ((postRouteSuccess resultText userSkills).2).Sublist
      (extractedSkills resultText) ∧
    (extractedSkills resultText).contains "" = false := by
  refine ⟨rfl, List.filter_sublist _, ?_⟩
  cases hcc : (extractedSkills resultText).contains "" with
  | false => rfl
  | true =>
    have hmem : "" ∈ extractedSkills resultText := (contains_iff _ _).1 hcc
    have hpred := (List.mem_filter.1 hmem).2
    simp at hpred

/-- Claim C8: the matching and scoring engine is deterministic — two runs on
equal inputs (`requiredSkills`, the user-skills text and the job description)
produce the same analysis, percentages, readiness score, top-missing list and
roadmap. -/
theorem analysis_deterministic (r1 r2 : List String) (u1 u2 j1 j2 : String)
    (hr : r1 = r2) (hu : u1 = u2) (hj : j1 = j2) :
    analyzeRun r1 u1 j1 = analyzeRun r2 u2 j2 := by
  subst hr
  subst hu
  subst hj
  rfl

/-- Witness for claim C8 at concrete equal inputs. -/
theorem analysis_deterministic_witness :
    analyzeRun ["React"] "react" "Needs React" =
      analyzeRun ["React"] "react" "Needs React" :=
  analysis_deterministic ["React"] ["React"] "react" "react"
    "Needs React" "Needs React" rfl rfl rfl

/-- Claim C9: if the user-skills text has a comma-separated segment that
normalizes to the empty string (a trailing comma, two adjacent commas, a
blank segment), the client fuzzy re-match marks every required skill matched:
the missing list is empty and the matched list is all of `requiredSkills`. -/
theorem empty_segment_matches_all (required : List String) (userSkills : String)
    (h : [] ∈ userSkillsArrayOf userSkills) :
    clientMissingSkills required userSkills = [] ∧
    matchedSkills (buildAnalysis required userSkills) = required := by
  have hall : ∀ s : String, isMatched (userSkillsArrayOf userSkills) s = true := by
    intro s
    apply List.any_eq_true.2
    refine ⟨[], h, ?_⟩
    rw [jsIncludes_nil]
    simp
  have h1 : clientMissingSkills required userSkills = [] := by
    apply List.filter_eq_nil_iff.2
    intro s _
    rw [hall s]
    simp
  refine ⟨h1, ?_⟩
  show required.filter
    (fun skill => !((clientMissingSkills required userSkills).contains skill))
      = required
  rw [h1]
  simp

/-- Witness for claim C9: `"python,,"` has an empty segment, so every
required skill is matched. -/
theorem empty_segment_matches_all_witness :
    clientMissingSkills ["React", "SQL"] "python,," = [] ∧
    matchedSkills (buildAnalysis ["React", "SQL"] "python,,") = ["React", "SQL"] :=
  empty_segment_matches_all ["React", "SQL"] "python,," (by decide)

/-- Claim C10: the body parse happens before the route's `try`, so a
malformed body escapes as an uncaught exception and is not converted into the
generic error response; only a failure after parsing yields the
`{error: "Failed to analyze job"}` 500 response, and on such a failure
nothing is appended to the in-memory store (while a success appends one
entry). -/
theorem route_parse_before_catch (jobDescription text : String)
    (userSkills : List String) (ai : AiCall) :
    (POST BodyParse.malformed ai).response = RouteResponse.uncaughtException ∧
    RouteResponse.uncaughtException ≠
      RouteResponse.jsonError 500 "Failed to analyze job" ∧
    (POST (BodyParse.ok jobDescription userSkills) AiCall.fail).response =
      RouteResponse.jsonError 500 "Failed to analyze job" ∧
    (POST (BodyParse.ok jobDescription userSkills) AiCall.fail).appendedToStore
      = [] ∧
    (POST (BodyParse.ok jobDescription userSkills) (AiCall.ok text)).response =
      RouteResponse.json 200 (postRouteSuccess text userSkills).1
        (postRouteSuccess text userSkills).2 ∧
    (POST (BodyParse.ok jobDescription userSkills) (AiCall.ok text)).appendedToStore
      = [postRouteSuccess text userSkills] := by
  refine ⟨?_, by decide, rfl, rfl, rfl, rfl⟩
  cases ai <;> rfl

end SkillLens
